import Mathlib

/-!
Verification development for the `less-scanner` repository: a stylesheet
corpus scanner consisting of a counter store, a recursive AST classifier
(`Scanner.scanRules` / `Scanner.scanNode`), a per-worker scan loop, a
coordinator that dispatches file tasks round-robin and merges the workers'
counter stores (`merge`), and a report sorter (`sortKeys`).

The definitions below are shallow embeddings of the TypeScript sources:
  * scanner.ts : `makeCounters`, `sortKeys`, `Counter`, `Counters`,
    class `Scanner` (`scan`, `scanRules`, `incr`, the ten counter helper
    methods, `scanNode`);
  * worker.ts  : the per-worker message loop around one `Scanner`;
  * main.ts    : `merge`, the round-robin task dispatch loop of `main`.
JavaScript object semantics that the code relies on are modelled
explicitly: a `Counter` is a key/value list in property-creation order,
and `Object.keys` enumeration (`jsKeys`) lists array-index-like keys in
ascending numeric order before the remaining keys in insertion order.
`Array.prototype.sort` (stable, per ECMAScript) is modelled by a stable
insertion sort with the same comparator.

The stylesheet parser is an external library; parsed trees are modelled
by the inductive `Node`, which carries exactly the fields the scanner
reads, and parse outcomes by `ParseResult`.
-/

set_option maxHeartbeats 1600000

/-- A JS object used as a counter: mapping from string key to count,
with keys kept in property-creation (insertion) order.  In scanner.ts:
`type Counter = { [x: string]: number }`. -/
abbrev Counter := List (String × Nat)

/-- Lookup `c[k] || 0`: the value stored at key `k`, or 0 when absent. -/
def getCount : Counter → String → Nat
  | [], _ => 0
  | p :: rest, k => if p.1 = k then p.2 else getCount rest k

/-- The keys of the object, in insertion order. -/
def keysOf (c : Counter) : List String :=
  c.map (fun p => p.1)

/-- Whether key `k` is present in the object. -/
def hasKey (c : Counter) (k : String) : Bool :=
  decide (k ∈ keysOf c)

/-- Well-formedness of the model: a JS object cannot hold the same key
twice, so the key list has no duplicates. -/
def counterWF (c : Counter) : Prop := (keysOf c).Nodup

instance (c : Counter) : Decidable (counterWF c) := by
  unfold counterWF; infer_instance

/-- The assignment `d[k] = (d[k] || 0) + v` (the body of the `merge` loop
in main.ts).  An existing key keeps its position; a new key is appended. -/
def setAdd (d : Counter) (k : String) (v : Nat) : Counter :=
  if hasKey d k then d.map (fun p => if p.1 = k then (p.1, p.2 + v) else p)
  else d ++ [(k, v)]

/-- `Scanner.incr` from scanner.ts: `let n = c[s] || 0; c[s] = n + 1`. -/
def incr (c : Counter) (s : String) : Counter :=
  if hasKey c s then c.map (fun p => if p.1 = s then (p.1, p.2 + 1) else p)
  else c ++ [(s, 1)]

/-- Numeric value of a digit string (garbage on non-digit input, which
callers filter out first). -/
def natFromDigits (chs : List Char) : Nat :=
  chs.foldl (fun acc ch => acc * 10 + (ch.toNat - 48)) 0

/-- Whether a string is a canonical ECMAScript array index: nonempty, all
decimal digits, no leading zero (except "0" itself), and below
2^32 - 1. -/
def isArrayIndex (s : String) : Bool :=
  !s.toList.isEmpty && s.toList.all (fun ch => ch.isDigit)
    && (s.toList.length == 1 || !(s.toList.headD '0' == '0'))
    && decide (natFromDigits s.toList < 4294967295)

/-- `Object.keys(c)`: ECMAScript own-property enumeration order — keys
that are array indices first, in ascending numeric order, then the
remaining string keys in property-creation order. -/
def jsKeys (c : Counter) : List String :=
  ((keysOf c).filter (fun k => isArrayIndex k)).insertionSort
      (fun a b => natFromDigits a.toList ≤ natFromDigits b.toList)
    ++ (keysOf c).filter (fun k => !isArrayIndex k)

/-- `sortKeys` from scanner.ts: enumerate the keys (`Object.keys`), sort
them with the comparator `(a, b) => c[a] < c[b] ? 1 : c[a] == c[b] ? 0 : -1`
(count descending, ties compare equal; `Array.prototype.sort` is stable,
modelled by a stable insertion sort), then emit `[key, c[key]]` pairs. -/
def sortKeys (c : Counter) : List (String × Nat) :=
  (((jsKeys c).insertionSort (fun a b => getCount c b ≤ getCount c a)).map
    (fun k => (k, getCount c k)))

/-- The counter store of scanner.ts (`interface Counters`).  The source
field `syntax` is named `syntaxC` here (`syntax` is reserved in Lean), and
`variables` is named `variablesC` (likewise reserved). -/
structure Counters where
  colors : Counter
  color_keywords : Counter
  dimensions : Counter
  directives : Counter
  elements : Counter
  functions : Counter
  keywords : Counter
  properties : Counter
  ratio : Counter
  variablesC : Counter
  syntaxC : Counter
  deriving Repr, DecidableEq

/-- `makeCounters` from scanner.ts: every section starts empty. -/
def makeCounters : Counters :=
  { colors := [], color_keywords := [], dimensions := [], directives := []
  , elements := [], functions := [], keywords := [], properties := []
  , ratio := [], variablesC := [], syntaxC := [] }

/-- The ten counter-mutating helper methods of class `Scanner`
(`color`, `dim`, `dir`, `elem`, `func`, `kwd`, `prop`, `ratio`, `vars`,
`instr`), as the sections they write to.  Note there is no helper for the
`color_keywords` section. -/
inductive Target where
  | colorsT | dimensionsT | directivesT | elementsT | functionsT
  | keywordsT | propertiesT | ratioT | variablesT | syntaxT
  deriving Repr, DecidableEq

/-- Apply one helper method: `this.incr(this.counters.<section>, s)`. -/
def bump (c : Counters) : Target → String → Counters
  | .colorsT, s => { c with colors := incr c.colors s }
  | .dimensionsT, s => { c with dimensions := incr c.dimensions s }
  | .directivesT, s => { c with directives := incr c.directives s }
  | .elementsT, s => { c with elements := incr c.elements s }
  | .functionsT, s => { c with functions := incr c.functions s }
  | .keywordsT, s => { c with keywords := incr c.keywords s }
  | .propertiesT, s => { c with properties := incr c.properties s }
  | .ratioT, s => { c with ratio := incr c.ratio s }
  | .variablesT, s => { c with variablesC := incr c.variablesC s }
  | .syntaxT, s => { c with syntaxC := incr c.syntaxC s }

/-- `Scanner.color`. -/
def color (c : Counters) (s : String) : Counters := bump c .colorsT s
/-- `Scanner.dim`. -/
def dim (c : Counters) (s : String) : Counters := bump c .dimensionsT s
/-- `Scanner.dir`. -/
def dir (c : Counters) (s : String) : Counters := bump c .directivesT s
/-- `Scanner.elem`. -/
def elem (c : Counters) (s : String) : Counters := bump c .elementsT s
/-- `Scanner.func`. -/
def func (c : Counters) (s : String) : Counters := bump c .functionsT s
/-- `Scanner.kwd`. -/
def kwd (c : Counters) (s : String) : Counters := bump c .keywordsT s
/-- `Scanner.prop` (named `propIncr` here; `prop` exists in the library). -/
def propIncr (c : Counters) (s : String) : Counters := bump c .propertiesT s
/-- `Scanner.ratio`, the helper method (named apart from the field). -/
def ratioIncr (c : Counters) (s : String) : Counters := bump c .ratioT s
/-- `Scanner.vars`. -/
def vars (c : Counters) (s : String) : Counters := bump c .variablesT s
/-- `Scanner.instr`, the syntax meta-counter tag. -/
def instr (c : Counters) (s : String) : Counters := bump c .syntaxT s

/-- `merge` on one section: for every key of the source object, in
`Object.keys` enumeration order, `d[key] = (d[key] || 0) + s[key]`. -/
def mergeCounter (d s : Counter) : Counter :=
  (jsKeys s).foldl (fun acc k => setAdd acc k (getCount s k)) d

/-- `merge(dst, src)` from main.ts: pointwise `mergeCounter` on every one
of the eleven named sections. -/
def merge (dst src : Counters) : Counters :=
  { colors := mergeCounter dst.colors src.colors
  , color_keywords := mergeCounter dst.color_keywords src.color_keywords
  , dimensions := mergeCounter dst.dimensions src.dimensions
  , directives := mergeCounter dst.directives src.directives
  , elements := mergeCounter dst.elements src.elements
  , functions := mergeCounter dst.functions src.functions
  , keywords := mergeCounter dst.keywords src.keywords
  , properties := mergeCounter dst.properties src.properties
  , ratio := mergeCounter dst.ratio src.ratio
  , variablesC := mergeCounter dst.variablesC src.variablesC
  , syntaxC := mergeCounter dst.syntaxC src.syntaxC }

/-- The binary operators of `Operation` nodes (enum `Operator` of the
parser library, restricted to the values the scanner switches on). -/
inductive Operator where
  | add | subtract | multiply | divide | andOp | orOp
  | eq | ne | gt | gte | lt | lte
  deriving Repr, DecidableEq

/-- The `syntax` tag the OPERATION case of `scanNode` records for each
operator. -/
def opTag : Operator → String
  | .add => "operation_add"
  | .subtract => "operation_subtract"
  | .multiply => "operation_multiply"
  | .divide => "operation_divide"
  | .andOp => "operation_and"
  | .orOp => "operation_or"
  | .eq => "operation_eq"
  | .ne => "operation_ne"
  | .gt => "operation_gt"
  | .gte => "operation_gte"
  | .lt => "operation_lt"
  | .lte => "operation_lte"

/-- Parsed syntax tree nodes, carrying exactly the fields the scanner
reads.  `nullNode` stands for an absent (`null`/`undefined`) child — the
scanner is handed such values (e.g. the guard of a guardless mixin) and
bails out on them via `if (!n) return`.  `Option` fields model members
the source tests for presence (`m.features`, `i.features`, `p.value`,
`e.values`) before use.  A `condition` carries its comparison operator
(as in the library), which `scanNode` never reads.  An `rgbColor` carries
the canonical rendered text that the external library's buffer produces.
Block-bearing statement forms (dispatched in `scanRules`) are the last
five constructors; a block's rule list may contain `nullNode` holes. -/
inductive Node where
  | nullNode
  | argument (value : Node)
  | assignment (value : Node)
  | keywordColor (kw : String)
  | rgbColor (rendered : String)
  | condition (op : Operator) (left right : Node)
  | definition (value : Node)
  | dimension (value : String) (unit : Option String)
  | directive (value : Node)
  | attributeElement (parts : List Node)
  | valueElement (value : Node)
  | textElement (name : String)
  | expression (values : Option (List Node))
  | expressionList (values : List Node)
  | falseNode (value : String)
  | trueNode (value : String)
  | feature (propertyName : String) (value : Node)
  | features (feats : List Node)
  | functionCall (name : String) (args : List Node)
  | guard (conditions : List Node)
  | importNode (feats : Option Node) (path : Node)
  | keyword (value : String)
  | mixinArgs (args : List Node)
  | mixinCall (args : Node) (selector : Node)
  | mixinParams (params : List Node)
  | operation (op : Operator) (left right : Node)
  | parameter (value : Option Node)
  | paren (value : Node)
  | property (name : String)
  | quoted
  | ratioNode (value : String)
  | rule (ruleProperty : Node) (value : Node)
  | selector (elements : List Node)
  | selectors (sels : List Node)
  | shorthand (left right : Node)
  | unicodeRange
  | url
  | variableRef (name : String)
  | blockDirective (name : String) (block : List Node)
  | genericBlock (block : List Node)
  | media (feats : Option Node) (block : List Node)
  | mixin (guardN : Node) (params : Node) (block : List Node)
  | ruleset (sels : Node) (block : List Node)

/-- JS truthiness of an optional string member (`d.unit ? ... : ...`):
`undefined` and the empty string are falsy. -/
def strTruthy : Option String → Bool
  | none => false
  | some s => s ≠ ""

mutual

/-- `Scanner.scanNode` from scanner.ts.  Depth-first pre-order dispatch
on the node discriminant; every counter mutation threads through the
returned store.  The three ELEMENT shapes deliberately reproduce the
source's fallthrough into the EXPRESSION case (no `break` after the
ELEMENT case): after the element-specific handling, `instr("expression")`
runs, and the cast `n as Expression` leaves `e.values` undefined, so the
EXPRESSION loop body is skipped.  Block-level statement forms have no
case in the source's switch and fall through to a no-op. -/
def scanNode (c : Counters) : Node → Counters
  | .nullNode => c
  | .argument v => scanNode (instr c "argument") v
  | .assignment v => scanNode (instr c "assignment") v
  | .keywordColor k => kwd (instr c "keyword_color") k
  | .rgbColor rendered => color (instr c "rgb_color") rendered
  | .condition _ l r => scanNode (scanNode (instr c "condition") l) r
  | .definition v => scanNode (instr c "definition") v
  | .dimension v u =>
      dim (if strTruthy u then instr c "dimension" else instr c "number")
        (v ++ (if strTruthy u then u.getD "" else ""))
  | .directive v => scanNode (instr c "directive") v
  | .attributeElement parts =>
      instr (scanNodes (instr c "attribute_element") parts) "expression"
  | .valueElement v =>
      instr (scanNode (instr c "value_element") v) "expression"
  | .textElement name =>
      instr (elem (instr c "text_element") name) "expression"
  | .expression (some l) => scanNodes (instr c "expression") l
  | .expression none => instr c "expression"
  | .expressionList vs => scanNodes (instr c "expression_list") vs
  | .falseNode v => kwd (instr c "keyword") v
  | .trueNode v => kwd (instr c "keyword") v
  | .feature pname v => scanNode (propIncr (instr c "feature") pname) v
  | .features fs => scanNodes (instr c "features") fs
  | .functionCall name args => scanNodes (func (instr c "function_call") name) args
  | .guard conds => scanNodes (instr c "guard") conds
  | .importNode (some f) path => scanNode (scanNode (instr c "import") f) path
  | .importNode none path => scanNode (instr c "import") path
  | .keyword v => kwd (instr c "keyword") v
  | .mixinArgs args => scanNodes (instr c "mixin_args") args
  | .mixinCall args sel => scanNode (scanNode (instr c "mixin_call") args) sel
  | .mixinParams ps => scanNodes (instr c "mixin_params") ps
  | .operation op l r => scanNode (scanNode (instr c (opTag op)) l) r
  | .parameter (some x) => scanNode (instr c "parameter") x
  | .parameter none => instr c "parameter"
  | .paren v => scanNode (instr c "paren") v
  | .property name => propIncr (instr c "property") name
  | .quoted => instr c "quoted"
  | .ratioNode v => ratioIncr (instr c "ratio") v
  | .rule p v => scanNode (scanNode (instr c "rule") p) v
  | .selector els => scanNodes (instr c "selector") els
  | .selectors sels => scanNodes (instr c "selectors") sels
  | .shorthand l r => scanNode (scanNode (instr c "shorthand") l) r
  | .unicodeRange => instr c "unicode_range"
  | .url => instr c "url"
  | .variableRef name => vars (instr c "variable") name
  | .blockDirective _ _ => c
  | .genericBlock _ => c
  | .media _ _ => c
  | .mixin _ _ _ => c
  | .ruleset _ _ => c

/-- A `for (const v of vs) this.scanNode(v)` loop. -/
def scanNodes (c : Counters) : List Node → Counters
  | [] => c
  | n :: ns => scanNodes (scanNode c n) ns

/-- `Scanner.scanRules` from scanner.ts: iterate a block's rule list,
silently skipping absent entries (`if (n == undefined) continue`), and
dispatch the block-level statement forms; any other discriminant at block
level is ignored. -/
def scanRules (c : Counters) : List Node → Counters
  | [] => c
  | Node.nullNode :: rest => scanRules c rest
  | Node.mixinCall args sel :: rest =>
      scanRules (instr (scanNode c (Node.mixinCall args sel)) "mixin_call") rest
  | Node.rule p v :: rest =>
      scanRules (instr (scanNode c (Node.rule p v)) "rule") rest
  | Node.blockDirective name block :: rest =>
      scanRules (scanRules (dir (instr c "block_directive") name) block) rest
  | Node.genericBlock block :: rest =>
      scanRules (scanRules (instr c "generic_block") block) rest
  | Node.media (some f) block :: rest =>
      scanRules (scanRules (scanNode (instr c "media") f) block) rest
  | Node.media none block :: rest =>
      scanRules (scanRules (instr c "media") block) rest
  | Node.mixin g params block :: rest =>
      scanRules (scanRules (scanNode (scanNode (instr c "mixin") g) params) block) rest
  | Node.ruleset sels block :: rest =>
      scanRules (scanRules (scanNode (instr c "ruleset") sels) block) rest
  | _ :: rest => scanRules c rest

end

/-- Outcome of the external `compiler.parse(source)` call for one file:
the parser throws (carrying a message), returns no tree, or returns a
stylesheet tree whose block holds the given rule list. -/
inductive ParseResult where
  | perror (msg : String)
  | noTree
  | parsed (block : List Node)

/-- `Scanner.scan` from scanner.ts: parse failures return a diagnostic
naming the file and leave the owned store untouched; a successful parse
scans `(tree as Stylesheet).block` and returns no diagnostic. -/
def scan (c : Counters) (path : String) : ParseResult → Counters × Option String
  | .perror e => (c, some ("failed to parse " ++ path ++ ": " ++ e))
  | .noTree => (c, some ("failed to parse " ++ path))
  | .parsed block => (scanRules c block, none)

/-- Whether the parse result carries a tree. -/
def isParsed : ParseResult → Bool
  | .parsed _ => true
  | _ => false

/-- One `scan` message handled by the worker loop of worker.ts: run
`scanner.scan` on the task's path; the returned diagnostic does not stop
the loop. -/
def scanTask (c : Counters) (task : String × ParseResult) : Counters :=
  (scan c task.1 task.2).1

/-- The worker's whole life: its single scanner processes the stream of
scan tasks sequentially, accumulating into one store. -/
def workerRun (c : Counters) (tasks : List (String × ParseResult)) : Counters :=
  tasks.foldl scanTask c

/-- A command-line path argument as the dispatch loop of main.ts sees
it: nonexistent, an existing file, or an existing directory with its
entry names. -/
inductive PathArg where
  | missing (arg : String)
  | file (arg : String)
  | directory (arg : String) (entries : List String)

/-- Payload of a `scan` message posted by main.ts.  For a file argument
the source posts `{ kind: 'scan', path: s }` where `s = fs.statSync(arg)`
— the Stats object, not a path string (`statsOf`); for a directory entry
it posts the joined path string (`pathOf`). -/
inductive ScanPayload where
  | statsOf (arg : String)
  | pathOf (p : String)
  deriving Repr, DecidableEq

/-- `filepath.join(arg, name)`. -/
def joinPath (a b : String) : String := a ++ "/" ++ b

/-- The inner directory loop of main.ts: each entry is posted to worker
`idx % count` and `idx` increments by one per entry. -/
def dispatchDir (arg : String) (count : Nat) (idx : Nat) :
    List String → List (Nat × ScanPayload)
  | [] => []
  | name :: names =>
      (idx % count, .pathOf (joinPath arg name)) :: dispatchDir arg count (idx + 1) names

/-- The argument loop of main.ts, threading the running task index:
missing paths are skipped, a file argument posts one message carrying the
`statSync` result, a directory argument posts one message per entry. -/
def dispatchFrom (count : Nat) (idx : Nat) : List PathArg → List (Nat × ScanPayload)
  | [] => []
  | .missing _ :: rest => dispatchFrom count idx rest
  | .file arg :: rest => (idx % count, .statsOf arg) :: dispatchFrom count (idx + 1) rest
  | .directory arg entries :: rest =>
      dispatchDir arg count idx entries
        ++ dispatchFrom count (idx + entries.length) rest

/-- The full dispatch of main.ts: `idx` starts at 0, `count` workers. -/
def dispatch (args : List PathArg) (count : Nat) : List (Nat × ScanPayload) :=
  dispatchFrom count 0 args

/-- One counter increment emitted during a traversal: which helper method
fired, with which key. -/
abbrev Ev := Target × String

/-- Replay a list of increments against a store. -/
def applyEvents (c : Counters) : List Ev → Counters
  | [] => c
  | (t, s) :: evs => applyEvents (bump c t s) evs

mutual

/-- The sequence of counter increments one `scanNode` call performs, in
order.  Mirrors `scanNode` case for case. -/
def evNode : Node → List Ev
  | .nullNode => []
  | .argument v => (.syntaxT, "argument") :: evNode v
  | .assignment v => (.syntaxT, "assignment") :: evNode v
  | .keywordColor k => [(.syntaxT, "keyword_color"), (.keywordsT, k)]
  | .rgbColor rendered => [(.syntaxT, "rgb_color"), (.colorsT, rendered)]
  | .condition _ l r => (.syntaxT, "condition") :: (evNode l ++ evNode r)
  | .definition v => (.syntaxT, "definition") :: evNode v
  | .dimension v u =>
      [(.syntaxT, if strTruthy u then "dimension" else "number"),
       (.dimensionsT, v ++ (if strTruthy u then u.getD "" else ""))]
  | .directive v => (.syntaxT, "directive") :: evNode v
  | .attributeElement parts =>
      (.syntaxT, "attribute_element") :: (evNodes parts ++ [(.syntaxT, "expression")])
  | .valueElement v =>
      (.syntaxT, "value_element") :: (evNode v ++ [(.syntaxT, "expression")])
  | .textElement name =>
      [(.syntaxT, "text_element"), (.elementsT, name), (.syntaxT, "expression")]
  | .expression (some l) => (.syntaxT, "expression") :: evNodes l
  | .expression none => [(.syntaxT, "expression")]
  | .expressionList vs => (.syntaxT, "expression_list") :: evNodes vs
  | .falseNode v => [(.syntaxT, "keyword"), (.keywordsT, v)]
  | .trueNode v => [(.syntaxT, "keyword"), (.keywordsT, v)]
  | .feature pname v => (.syntaxT, "feature") :: (.propertiesT, pname) :: evNode v
  | .features fs => (.syntaxT, "features") :: evNodes fs
  | .functionCall name args =>
      (.syntaxT, "function_call") :: (.functionsT, name) :: evNodes args
  | .guard conds => (.syntaxT, "guard") :: evNodes conds
  | .importNode (some f) path => (.syntaxT, "import") :: (evNode f ++ evNode path)
  | .importNode none path => (.syntaxT, "import") :: evNode path
  | .keyword v => [(.syntaxT, "keyword"), (.keywordsT, v)]
  | .mixinArgs args => (.syntaxT, "mixin_args") :: evNodes args
  | .mixinCall args sel => (.syntaxT, "mixin_call") :: (evNode args ++ evNode sel)
  | .mixinParams ps => (.syntaxT, "mixin_params") :: evNodes ps
  | .operation op l r => (.syntaxT, opTag op) :: (evNode l ++ evNode r)
  | .parameter (some x) => (.syntaxT, "parameter") :: evNode x
  | .parameter none => [(.syntaxT, "parameter")]
  | .paren v => (.syntaxT, "paren") :: evNode v
  | .property name => [(.syntaxT, "property"), (.propertiesT, name)]
  | .quoted => [(.syntaxT, "quoted")]
  | .ratioNode v => [(.syntaxT, "ratio"), (.ratioT, v)]
  | .rule p v => (.syntaxT, "rule") :: (evNode p ++ evNode v)
  | .selector els => (.syntaxT, "selector") :: evNodes els
  | .selectors sels => (.syntaxT, "selectors") :: evNodes sels
  | .shorthand l r => (.syntaxT, "shorthand") :: (evNode l ++ evNode r)
  | .unicodeRange => [(.syntaxT, "unicode_range")]
  | .url => [(.syntaxT, "url")]
  | .variableRef name => [(.syntaxT, "variable"), (.variablesT, name)]
  | .blockDirective _ _ => []
  | .genericBlock _ => []
  | .media _ _ => []
  | .mixin _ _ _ => []
  | .ruleset _ _ => []

/-- Increments of a `for` loop over nodes. -/
def evNodes : List Node → List Ev
  | [] => []
  | n :: ns => evNode n ++ evNodes ns

/-- Increments of one `scanRules` call, in order. -/
def evRules : List Node → List Ev
  | [] => []
  | Node.nullNode :: rest => evRules rest
  | Node.mixinCall args sel :: rest =>
      (evNode (Node.mixinCall args sel) ++ [(.syntaxT, "mixin_call")]) ++ evRules rest
  | Node.rule p v :: rest =>
      (evNode (Node.rule p v) ++ [(.syntaxT, "rule")]) ++ evRules rest
  | Node.blockDirective name block :: rest =>
      ((.syntaxT, "block_directive") :: (.directivesT, name) :: evRules block) ++ evRules rest
  | Node.genericBlock block :: rest =>
      ((.syntaxT, "generic_block") :: evRules block) ++ evRules rest
  | Node.media (some f) block :: rest =>
      ((.syntaxT, "media") :: (evNode f ++ evRules block)) ++ evRules rest
  | Node.media none block :: rest =>
      ((.syntaxT, "media") :: evRules block) ++ evRules rest
  | Node.mixin g params block :: rest =>
      ((.syntaxT, "mixin") :: (evNode g ++ evNode params ++ evRules block)) ++ evRules rest
  | Node.ruleset sels block :: rest =>
      ((.syntaxT, "ruleset") :: (evNode sels ++ evRules block)) ++ evRules rest
  | _ :: rest => evRules rest

end

/-- Increments of one worker task: a parse failure emits none. -/
def evTask (task : String × ParseResult) : List Ev :=
  match task.2 with
  | .parsed block => evRules block
  | _ => []

/-- Increments of a worker's whole task stream. -/
def evTasks (tasks : List (String × ParseResult)) : List Ev :=
  (tasks.map evTask).flatten

/-- The eleven named sections of a counter store. -/
inductive SectionName where
  | colorsS | colorKeywordsS | dimensionsS | directivesS | elementsS
  | functionsS | keywordsS | propertiesS | ratioS | variablesS | syntaxS
  deriving Repr, DecidableEq

/-- Project a store onto one named section. -/
def sectionOf (c : Counters) : SectionName → Counter
  | .colorsS => c.colors
  | .colorKeywordsS => c.color_keywords
  | .dimensionsS => c.dimensions
  | .directivesS => c.directives
  | .elementsS => c.elements
  | .functionsS => c.functions
  | .keywordsS => c.keywords
  | .propertiesS => c.properties
  | .ratioS => c.ratio
  | .variablesS => c.variablesC
  | .syntaxS => c.syntaxC

/-- The section each helper method writes to.  No helper targets
`colorKeywordsS`. -/
def toName : Target → SectionName
  | .colorsT => .colorsS
  | .dimensionsT => .dimensionsS
  | .directivesT => .directivesS
  | .elementsT => .elementsS
  | .functionsT => .functionsS
  | .keywordsT => .keywordsS
  | .propertiesT => .propertiesS
  | .ratioT => .ratioS
  | .variablesT => .variablesS
  | .syntaxT => .syntaxS

/-- The count stored for key `k` of section `sn`. -/
def getS (c : Counters) (sn : SectionName) (k : String) : Nat :=
  getCount (sectionOf c sn) k

/-- How many increments in a replay hit section `sn` at key `k`. -/
def countEv (evs : List Ev) (sn : SectionName) (k : String) : Nat :=
  (evs.filter (fun e => toName e.1 == sn && e.2 == k)).length

/-- Well-formedness of a whole store: every section is a well-formed JS
object (no duplicate keys). -/
def countersWF (c : Counters) : Prop :=
  counterWF c.colors ∧ counterWF c.color_keywords ∧ counterWF c.dimensions ∧
  counterWF c.directives ∧ counterWF c.elements ∧ counterWF c.functions ∧
  counterWF c.keywords ∧ counterWF c.properties ∧ counterWF c.ratio ∧
  counterWF c.variablesC ∧ counterWF c.syntaxC

instance (c : Counters) : Decidable (countersWF c) := by
  unfold countersWF; infer_instance

/-- The tree stipulated for the guard condition `(@a + @b > 10)`: a
condition node whose comparison operator is greater-than, whose left
operand is an addition over variable references `a` and `b`, and whose
right operand is the bare number 10. -/
def guardConditionTree : Node :=
  .condition .gt
    (.operation .add (.variableRef "a") (.variableRef "b"))
    (.dimension "10" none)

/-- A sample scan task: file `f1` parses to `color: red`. -/
def taskF1 : String × ParseResult :=
  ("f1", ParseResult.parsed [Node.rule (Node.property "color") (Node.keyword "red")])

/-- A sample scan task: file `f2` parses to `width: 10px`. -/
def taskF2 : String × ParseResult :=
  ("f2", ParseResult.parsed
    [Node.rule (Node.property "width") (Node.dimension "10" (some "px"))])


theorem hasKey_iff_mem (c : Counter) (k : String) :
    hasKey c k = true ↔ k ∈ keysOf c := by
  simp [hasKey]

theorem hasKey_cons (p : String × Nat) (rest : Counter) (k : String) :
    hasKey (p :: rest) k = (decide (p.1 = k) || hasKey rest k) := by
  simp only [hasKey, keysOf, List.map_cons, List.mem_cons]
  by_cases h : k = p.1
  · subst h
    simp
  · have h' : ¬ p.1 = k := fun hh => h hh.symm
    simp [h, h']

theorem getCount_append (c d : Counter) (k : String) :
    getCount (c ++ d) k = if hasKey c k then getCount c k else getCount d k := by
  induction c with
  | nil => simp [getCount, hasKey, keysOf]
  | cons p rest ih =>
    by_cases h : p.1 = k
    · simp [getCount, hasKey_cons, h]
    · simp [getCount, hasKey_cons, h, ih]

theorem getCount_absent (c : Counter) (k : String) (h : hasKey c k = false) :
    getCount c k = 0 := by
  induction c with
  | nil => rfl
  | cons p rest ih =>
    rw [hasKey_cons, Bool.or_eq_false_iff] at h
    have h1 : ¬ p.1 = k := by simpa using h.1
    simp [getCount, h1, ih h.2]

theorem getCount_map_add (d : Counter) (k0 k : String) (v : Nat) (h : ¬ k = k0) :
    getCount (d.map (fun p => if p.1 = k0 then (p.1, p.2 + v) else p)) k
      = getCount d k := by
  induction d with
  | nil => rfl
  | cons p rest ih =>
    by_cases h1 : p.1 = k0
    · have h2 : ¬ p.1 = k := fun hh => h (hh.symm.trans h1)
      have h3 : ¬ k0 = k := fun hh => h hh.symm
      simp [getCount, h1, h2, h3, ih]
    · by_cases h2 : p.1 = k
      · simp [getCount, h1, h2, h, Ne.symm h]
      · simp [getCount, h1, h2, ih]

theorem getCount_map_add_self (d : Counter) (k0 : String) (v : Nat)
    (h : hasKey d k0 = true) :
    getCount (d.map (fun p => if p.1 = k0 then (p.1, p.2 + v) else p)) k0
      = getCount d k0 + v := by
  induction d with
  | nil => simp [hasKey, keysOf] at h
  | cons p rest ih =>
    by_cases h1 : p.1 = k0
    · simp [getCount, h1]
    · have h2 : hasKey rest k0 = true := by
        rw [hasKey_cons] at h
        simpa [h1] using h
      simp [getCount, h1, ih h2]

theorem getCount_setAdd (d : Counter) (k0 : String) (v : Nat) (k : String) :
    getCount (setAdd d k0 v) k = getCount d k + if k = k0 then v else 0 := by
  unfold setAdd
  by_cases hk : hasKey d k0 = true
  · rw [if_pos hk]
    by_cases h : k = k0
    · subst h; simp [getCount_map_add_self d k v hk]
    · simp [getCount_map_add d k0 k v h, h]
  · have hk' : hasKey d k0 = false := by simpa using hk
    rw [if_neg (by simp [hk'])]
    by_cases h : k = k0
    · subst h
      rw [getCount_append, if_neg (by simp [hk']), getCount_absent d k hk']
      simp [getCount]
    · rw [getCount_append]
      by_cases hm : hasKey d k = true
      · simp [hm, h]
      · have hm' : hasKey d k = false := by simpa using hm
        rw [if_neg (by simp [hm']), getCount_absent d k hm']
        simp [getCount, h, Ne.symm h]

theorem incr_eq_setAdd (c : Counter) (s : String) : incr c s = setAdd c s 1 := rfl

theorem getCount_incr (c : Counter) (s k : String) :
    getCount (incr c s) k = getCount c k + if k = s then 1 else 0 := by
  rw [incr_eq_setAdd]; exact getCount_setAdd c s 1 k

theorem keysOf_map_add (d : Counter) (k0 : String) (v : Nat) :
    keysOf (d.map (fun p => if p.1 = k0 then (p.1, p.2 + v) else p)) = keysOf d := by
  simp only [keysOf, List.map_map]
  apply List.map_congr_left
  intro a _
  by_cases h : a.1 = k0 <;> simp [h]

theorem keysOf_setAdd (d : Counter) (k0 : String) (v : Nat) :
    keysOf (setAdd d k0 v)
      = if hasKey d k0 then keysOf d else keysOf d ++ [k0] := by
  unfold setAdd
  by_cases hk : hasKey d k0 = true
  · simp [hk, keysOf_map_add]
  · simp [hk, keysOf]

theorem counterWF_setAdd (d : Counter) (k0 : String) (v : Nat) (h : counterWF d) :
    counterWF (setAdd d k0 v) := by
  unfold counterWF
  rw [keysOf_setAdd]
  by_cases hk : hasKey d k0 = true
  · simpa [hk] using h
  · have hnm : k0 ∉ keysOf d := fun hm => hk ((hasKey_iff_mem d k0).mpr hm)
    simp only [counterWF] at h
    simp [hk, List.nodup_append, h, hnm]

theorem counterWF_incr (c : Counter) (s : String) (h : counterWF c) :
    counterWF (incr c s) := by
  rw [incr_eq_setAdd]; exact counterWF_setAdd c s 1 h

theorem mem_keysOf_setAdd (d : Counter) (k0 : String) (v : Nat) (k : String) :
    k ∈ keysOf (setAdd d k0 v) ↔ k ∈ keysOf d ∨ k = k0 := by
  rw [keysOf_setAdd]
  by_cases hk : hasKey d k0 = true
  · constructor
    · intro hm; simp [hk] at hm; exact Or.inl hm
    · intro hm
      rcases hm with hm | hm
      · simpa [hk] using hm
      · subst hm; simpa [hk] using (hasKey_iff_mem d k).mp hk
  · simp [hk]

theorem getS_bump (c : Counters) (t : Target) (s : String) (sn : SectionName)
    (k : String) :
    getS (bump c t s) sn k
      = getS c sn k + if toName t = sn ∧ k = s then 1 else 0 := by
  cases t <;> cases sn <;>
    simp [bump, getS, sectionOf, toName, getCount_incr]

theorem color_keywords_bump (c : Counters) (t : Target) (s : String) :
    (bump c t s).color_keywords = c.color_keywords := by
  cases t <;> rfl

theorem countersWF_bump (c : Counters) (t : Target) (s : String)
    (h : countersWF c) : countersWF (bump c t s) := by
  obtain ⟨h1, h2, h3, h4, h5, h6, h7, h8, h9, h10, h11⟩ := h
  cases t <;>
    exact ⟨by first | exact counterWF_incr _ _ h1 | exact h1,
           by first | exact counterWF_incr _ _ h2 | exact h2,
           by first | exact counterWF_incr _ _ h3 | exact h3,
           by first | exact counterWF_incr _ _ h4 | exact h4,
           by first | exact counterWF_incr _ _ h5 | exact h5,
           by first | exact counterWF_incr _ _ h6 | exact h6,
           by first | exact counterWF_incr _ _ h7 | exact h7,
           by first | exact counterWF_incr _ _ h8 | exact h8,
           by first | exact counterWF_incr _ _ h9 | exact h9,
           by first | exact counterWF_incr _ _ h10 | exact h10,
           by first | exact counterWF_incr _ _ h11 | exact h11⟩

theorem applyEvents_append (c : Counters) (a b : List Ev) :
    applyEvents c (a ++ b) = applyEvents (applyEvents c a) b := by
  induction a generalizing c with
  | nil => rfl
  | cons e rest ih =>
    obtain ⟨t, s⟩ := e
    simp [applyEvents, ih]

theorem countEv_nil (sn : SectionName) (k : String) : countEv [] sn k = 0 := rfl

theorem countEv_cons (e : Ev) (evs : List Ev) (sn : SectionName) (k : String) :
    countEv (e :: evs) sn k
      = (if toName e.1 = sn ∧ e.2 = k then 1 else 0) + countEv evs sn k := by
  by_cases h : toName e.1 = sn ∧ e.2 = k
  · simp [countEv, List.filter, h.1, h.2]
    omega
  · rw [if_neg h]
    have : (toName e.1 == sn && e.2 == k) = false := by
      rcases not_and_or.mp h with h' | h' <;> simp [h']
    simp [countEv, List.filter, this]

theorem countEv_append (a b : List Ev) (sn : SectionName) (k : String) :
    countEv (a ++ b) sn k = countEv a sn k + countEv b sn k := by
  simp [countEv, List.filter_append]

theorem getS_applyEvents (evs : List Ev) (c : Counters) (sn : SectionName)
    (k : String) :
    getS (applyEvents c evs) sn k = getS c sn k + countEv evs sn k := by
  induction evs generalizing c with
  | nil => simp [applyEvents, countEv]
  | cons e rest ih =>
    obtain ⟨t, s⟩ := e
    rw [show applyEvents c ((t, s) :: rest) = applyEvents (bump c t s) rest from rfl,
        ih, getS_bump, countEv_cons]
    by_cases hc : toName t = sn ∧ s = k
    · rw [if_pos ⟨hc.1, hc.2.symm⟩, if_pos hc]; omega
    · have hc' : ¬ (toName t = sn ∧ k = s) := fun hh => hc ⟨hh.1, hh.2.symm⟩
      rw [if_neg hc', if_neg hc]; omega

theorem applyEvents_color_keywords (evs : List Ev) (c : Counters) :
    (applyEvents c evs).color_keywords = c.color_keywords := by
  induction evs generalizing c with
  | nil => rfl
  | cons e rest ih =>
    obtain ⟨t, s⟩ := e
    rw [show applyEvents c ((t, s) :: rest) = applyEvents (bump c t s) rest from rfl,
        ih, color_keywords_bump]

theorem countersWF_applyEvents (evs : List Ev) (c : Counters)
    (h : countersWF c) : countersWF (applyEvents c evs) := by
  induction evs generalizing c with
  | nil => exact h
  | cons e rest ih =>
    obtain ⟨t, s⟩ := e
    exact ih (bump c t s) (countersWF_bump c t s h)

theorem getS_makeCounters (sn : SectionName) (k : String) :
    getS makeCounters sn k = 0 := by
  cases sn <;> rfl

theorem countersWF_makeCounters : countersWF makeCounters := by decide

mutual

/-- A `scanNode` call is the replay of its increment sequence. -/
theorem scanNode_ev : ∀ (c : Counters) (n : Node),
    scanNode c n = applyEvents c (evNode n)
  | c, .nullNode => by simp only [scanNode, evNode, applyEvents]
  | c, .argument v => by
      simp only [scanNode, evNode, applyEvents, instr]
      rw [scanNode_ev]
  | c, .assignment v => by
      simp only [scanNode, evNode, applyEvents, instr]
      rw [scanNode_ev]
  | c, .keywordColor k => by
      simp only [scanNode, evNode, applyEvents, instr, kwd]
  | c, .rgbColor rendered => by
      simp only [scanNode, evNode, applyEvents, instr, color]
  | c, .condition op l r => by
      simp only [scanNode, evNode, applyEvents, applyEvents_append, List.append_eq, instr]
      rw [scanNode_ev, scanNode_ev]
  | c, .definition v => by
      simp only [scanNode, evNode, applyEvents, instr]
      rw [scanNode_ev]
  | c, .dimension v u => by
      cases hst : strTruthy u <;>
        simp [scanNode, evNode, applyEvents, instr, dim, hst]
  | c, .directive v => by
      simp only [scanNode, evNode, applyEvents, instr]
      rw [scanNode_ev]
  | c, .attributeElement parts => by
      simp only [scanNode, evNode, applyEvents, applyEvents_append, List.append_eq, instr]
      rw [scanNodes_ev]
  | c, .valueElement v => by
      simp only [scanNode, evNode, applyEvents, applyEvents_append, List.append_eq, instr]
      rw [scanNode_ev]
  | c, .textElement name => by
      simp only [scanNode, evNode, applyEvents, instr, elem]
  | c, .expression (some l) => by
      simp only [scanNode, evNode, applyEvents, instr]
      rw [scanNodes_ev]
  | c, .expression none => by
      simp only [scanNode, evNode, applyEvents, instr]
  | c, .expressionList vs => by
      simp only [scanNode, evNode, applyEvents, instr]
      rw [scanNodes_ev]
  | c, .falseNode v => by
      simp only [scanNode, evNode, applyEvents, instr, kwd]
  | c, .trueNode v => by
      simp only [scanNode, evNode, applyEvents, instr, kwd]
  | c, .feature pname v => by
      simp only [scanNode, evNode, applyEvents, instr, propIncr]
      rw [scanNode_ev]
  | c, .features fs => by
      simp only [scanNode, evNode, applyEvents, instr]
      rw [scanNodes_ev]
  | c, .functionCall name args => by
      simp only [scanNode, evNode, applyEvents, instr, func]
      rw [scanNodes_ev]
  | c, .guard conds => by
      simp only [scanNode, evNode, applyEvents, instr]
      rw [scanNodes_ev]
  | c, .importNode (some f) path => by
      simp only [scanNode, evNode, applyEvents, applyEvents_append, List.append_eq, instr]
      rw [scanNode_ev, scanNode_ev]
  | c, .importNode none path => by
      simp only [scanNode, evNode, applyEvents, instr]
      rw [scanNode_ev]
  | c, .keyword v => by
      simp only [scanNode, evNode, applyEvents, instr, kwd]
  | c, .mixinArgs args => by
      simp only [scanNode, evNode, applyEvents, instr]
      rw [scanNodes_ev]
  | c, .mixinCall args sel => by
      simp only [scanNode, evNode, applyEvents, applyEvents_append, List.append_eq, instr]
      rw [scanNode_ev, scanNode_ev]
  | c, .mixinParams ps => by
      simp only [scanNode, evNode, applyEvents, instr]
      rw [scanNodes_ev]
  | c, .operation op l r => by
      simp only [scanNode, evNode, applyEvents, applyEvents_append, List.append_eq, instr]
      rw [scanNode_ev, scanNode_ev]
  | c, .parameter (some x) => by
      simp only [scanNode, evNode, applyEvents, instr]
      rw [scanNode_ev]
  | c, .parameter none => by
      simp only [scanNode, evNode, applyEvents, instr]
  | c, .paren v => by
      simp only [scanNode, evNode, applyEvents, instr]
      rw [scanNode_ev]
  | c, .property name => by
      simp only [scanNode, evNode, applyEvents, instr, propIncr]
  | c, .quoted => by
      simp only [scanNode, evNode, applyEvents, instr]
  | c, .ratioNode v => by
      simp only [scanNode, evNode, applyEvents, instr, ratioIncr]
  | c, .rule p v => by
      simp only [scanNode, evNode, applyEvents, applyEvents_append, List.append_eq, instr]
      rw [scanNode_ev, scanNode_ev]
  | c, .selector els => by
      simp only [scanNode, evNode, applyEvents, instr]
      rw [scanNodes_ev]
  | c, .selectors sels => by
      simp only [scanNode, evNode, applyEvents, instr]
      rw [scanNodes_ev]
  | c, .shorthand l r => by
      simp only [scanNode, evNode, applyEvents, applyEvents_append, List.append_eq, instr]
      rw [scanNode_ev, scanNode_ev]
  | c, .unicodeRange => by
      simp only [scanNode, evNode, applyEvents, instr]
  | c, .url => by
      simp only [scanNode, evNode, applyEvents, instr]
  | c, .variableRef name => by
      simp only [scanNode, evNode, applyEvents, instr, vars]
  | c, .blockDirective name bl => by simp only [scanNode, evNode, applyEvents]
  | c, .genericBlock bl => by simp only [scanNode, evNode, applyEvents]
  | c, .media fs bl => by simp only [scanNode, evNode, applyEvents]
  | c, .mixin g ps bl => by simp only [scanNode, evNode, applyEvents]
  | c, .ruleset sels bl => by simp only [scanNode, evNode, applyEvents]

/-- A node-list loop is the replay of its increment sequence. -/
theorem scanNodes_ev : ∀ (c : Counters) (ns : List Node),
    scanNodes c ns = applyEvents c (evNodes ns)
  | c, [] => by simp only [scanNodes, evNodes, applyEvents]
  | c, n :: ns => by
      simp only [scanNodes, evNodes, applyEvents_append]
      rw [scanNodes_ev, scanNode_ev]

/-- A `scanRules` call is the replay of its increment sequence. -/
theorem scanRules_ev : ∀ (c : Counters) (ns : List Node),
    scanRules c ns = applyEvents c (evRules ns)
  | c, [] => by simp only [scanRules, evRules, applyEvents]
  | c, Node.nullNode :: rest => by
      simp only [scanRules, evRules]
      rw [scanRules_ev]
  | c, Node.mixinCall args sel :: rest => by
      simp only [scanRules, scanNode, evRules, evNode, applyEvents,
        applyEvents_append, List.append_eq, instr]
      rw [scanRules_ev, scanNode_ev, scanNode_ev]
  | c, Node.rule p v :: rest => by
      simp only [scanRules, scanNode, evRules, evNode, applyEvents,
        applyEvents_append, List.append_eq, instr]
      rw [scanRules_ev, scanNode_ev, scanNode_ev]
  | c, Node.blockDirective name block :: rest => by
      simp only [scanRules, evRules, applyEvents, applyEvents_append, List.append_eq, instr, dir]
      rw [scanRules_ev, scanRules_ev]
  | c, Node.genericBlock block :: rest => by
      simp only [scanRules, evRules, applyEvents, applyEvents_append, List.append_eq, instr]
      rw [scanRules_ev, scanRules_ev]
  | c, Node.media (some f) block :: rest => by
      simp only [scanRules, evRules, applyEvents, applyEvents_append, List.append_eq, instr]
      rw [scanRules_ev, scanRules_ev, scanNode_ev]
  | c, Node.media none block :: rest => by
      simp only [scanRules, evRules, applyEvents, applyEvents_append, List.append_eq, instr]
      rw [scanRules_ev, scanRules_ev]
  | c, Node.mixin g params block :: rest => by
      simp only [scanRules, evRules, applyEvents, applyEvents_append, List.append_eq, instr]
      rw [scanRules_ev, scanRules_ev, scanNode_ev, scanNode_ev]
  | c, Node.ruleset sels block :: rest => by
      simp only [scanRules, evRules, applyEvents, applyEvents_append, List.append_eq, instr]
      rw [scanRules_ev, scanRules_ev, scanNode_ev]
  | c, Node.argument v :: rest => by
      simp only [scanRules, evRules]; rw [scanRules_ev]
  | c, Node.assignment v :: rest => by
      simp only [scanRules, evRules]; rw [scanRules_ev]
  | c, Node.keywordColor k :: rest => by
      simp only [scanRules, evRules]; rw [scanRules_ev]
  | c, Node.rgbColor rendered :: rest => by
      simp only [scanRules, evRules]; rw [scanRules_ev]
  | c, Node.condition op l r :: rest => by
      simp only [scanRules, evRules]; rw [scanRules_ev]
  | c, Node.definition v :: rest => by
      simp only [scanRules, evRules]; rw [scanRules_ev]
  | c, Node.dimension v u :: rest => by
      simp only [scanRules, evRules]; rw [scanRules_ev]
  | c, Node.directive v :: rest => by
      simp only [scanRules, evRules]; rw [scanRules_ev]
  | c, Node.attributeElement parts :: rest => by
      simp only [scanRules, evRules]; rw [scanRules_ev]
  | c, Node.valueElement v :: rest => by
      simp only [scanRules, evRules]; rw [scanRules_ev]
  | c, Node.textElement name :: rest => by
      simp only [scanRules, evRules]; rw [scanRules_ev]
  | c, Node.expression vs :: rest => by
      simp only [scanRules, evRules]; rw [scanRules_ev]
  | c, Node.expressionList vs :: rest => by
      simp only [scanRules, evRules]; rw [scanRules_ev]
  | c, Node.falseNode v :: rest => by
      simp only [scanRules, evRules]; rw [scanRules_ev]
  | c, Node.trueNode v :: rest => by
      simp only [scanRules, evRules]; rw [scanRules_ev]
  | c, Node.feature pname v :: rest => by
      simp only [scanRules, evRules]; rw [scanRules_ev]
  | c, Node.features fs :: rest => by
      simp only [scanRules, evRules]; rw [scanRules_ev]
  | c, Node.functionCall name args :: rest => by
      simp only [scanRules, evRules]; rw [scanRules_ev]
  | c, Node.guard conds :: rest => by
      simp only [scanRules, evRules]; rw [scanRules_ev]
  | c, Node.importNode fs path :: rest => by
      simp only [scanRules, evRules]; rw [scanRules_ev]
  | c, Node.keyword v :: rest => by
      simp only [scanRules, evRules]; rw [scanRules_ev]
  | c, Node.mixinArgs args :: rest => by
      simp only [scanRules, evRules]; rw [scanRules_ev]
  | c, Node.mixinParams ps :: rest => by
      simp only [scanRules, evRules]; rw [scanRules_ev]
  | c, Node.operation op l r :: rest => by
      simp only [scanRules, evRules]; rw [scanRules_ev]
  | c, Node.parameter v :: rest => by
      simp only [scanRules, evRules]; rw [scanRules_ev]
  | c, Node.paren v :: rest => by
      simp only [scanRules, evRules]; rw [scanRules_ev]
  | c, Node.property name :: rest => by
      simp only [scanRules, evRules]; rw [scanRules_ev]
  | c, Node.quoted :: rest => by
      simp only [scanRules, evRules]; rw [scanRules_ev]
  | c, Node.ratioNode v :: rest => by
      simp only [scanRules, evRules]; rw [scanRules_ev]
  | c, Node.selector els :: rest => by
      simp only [scanRules, evRules]; rw [scanRules_ev]
  | c, Node.selectors sels :: rest => by
      simp only [scanRules, evRules]; rw [scanRules_ev]
  | c, Node.shorthand l r :: rest => by
      simp only [scanRules, evRules]; rw [scanRules_ev]
  | c, Node.unicodeRange :: rest => by
      simp only [scanRules, evRules]; rw [scanRules_ev]
  | c, Node.url :: rest => by
      simp only [scanRules, evRules]; rw [scanRules_ev]
  | c, Node.variableRef name :: rest => by
      simp only [scanRules, evRules]; rw [scanRules_ev]

end

theorem scanTask_ev (c : Counters) (task : String × ParseResult) :
    scanTask c task = applyEvents c (evTask task) := by
  obtain ⟨p, pr⟩ := task
  cases pr <;> simp [scanTask, scan, evTask, applyEvents, scanRules_ev]

theorem evTasks_cons (t : String × ParseResult) (ts : List (String × ParseResult)) :
    evTasks (t :: ts) = evTask t ++ evTasks ts := by
  simp [evTasks]

theorem workerRun_cons (c : Counters) (t : String × ParseResult)
    (ts : List (String × ParseResult)) :
    workerRun c (t :: ts) = workerRun (scanTask c t) ts := rfl

theorem workerRun_ev (tasks : List (String × ParseResult)) (c : Counters) :
    workerRun c tasks = applyEvents c (evTasks tasks) := by
  induction tasks generalizing c with
  | nil => rfl
  | cons t ts ih =>
    rw [workerRun_cons, ih, scanTask_ev, evTasks_cons, applyEvents_append]

theorem jsKeys_perm (c : Counter) : List.Perm (jsKeys c) (keysOf c) := by
  unfold jsKeys
  refine List.Perm.trans
    (List.Perm.append (List.perm_insertionSort _ _) (List.Perm.refl _))
    (List.filter_append_perm _ _)

theorem getCount_foldl_setAdd (s : Counter) (L : List String) (hL : L.Nodup)
    (d : Counter) (k : String) :
    getCount (L.foldl (fun acc k0 => setAdd acc k0 (getCount s k0)) d) k
      = getCount d k + if k ∈ L then getCount s k else 0 := by
  induction L generalizing d with
  | nil => simp
  | cons k0 tl ih =>
    have hnd := List.nodup_cons.mp hL
    rw [List.foldl_cons, ih hnd.2, getCount_setAdd]
    by_cases h : k = k0
    · subst h
      have hntl : k ∉ tl := hnd.1
      simp [hntl]
    · simp [h]

theorem counterWF_foldl_setAdd (s : Counter) (L : List String) (d : Counter)
    (h : counterWF d) :
    counterWF (L.foldl (fun acc k0 => setAdd acc k0 (getCount s k0)) d) := by
  induction L generalizing d with
  | nil => exact h
  | cons k0 tl ih => exact ih _ (counterWF_setAdd d k0 _ h)

theorem getCount_mergeCounter (d s : Counter) (hs : counterWF s) (k : String) :
    getCount (mergeCounter d s) k = getCount d k + getCount s k := by
  unfold mergeCounter
  rw [getCount_foldl_setAdd s (jsKeys s) ((jsKeys_perm s).nodup_iff.mpr hs) d k]
  by_cases h : k ∈ jsKeys s
  · simp [h]
  · have h2 : hasKey s k = false := by
      by_contra hk
      have hk' : hasKey s k = true := by simpa using hk
      exact h ((jsKeys_perm s).mem_iff.mpr ((hasKey_iff_mem s k).mp hk'))
    simp [h, getCount_absent s k h2]

theorem counterWF_mergeCounter (d s : Counter) (h : counterWF d) :
    counterWF (mergeCounter d s) :=
  counterWF_foldl_setAdd s (jsKeys s) d h

theorem mem_keysOf_foldl_setAdd (s : Counter) (L : List String) (d : Counter)
    (k : String) :
    (k ∈ keysOf (L.foldl (fun acc k0 => setAdd acc k0 (getCount s k0)) d)
      ↔ k ∈ keysOf d ∨ k ∈ L) := by
  induction L generalizing d with
  | nil => simp
  | cons k0 tl ih =>
    rw [List.foldl_cons, ih, mem_keysOf_setAdd]
    simp [List.mem_cons]
    tauto

theorem mem_keysOf_mergeCounter (d s : Counter) (k : String) :
    k ∈ keysOf (mergeCounter d s) ↔ k ∈ keysOf d ∨ k ∈ keysOf s := by
  unfold mergeCounter
  rw [mem_keysOf_foldl_setAdd, (jsKeys_perm s).mem_iff]

theorem sectionOf_merge (a b : Counters) (sn : SectionName) :
    sectionOf (merge a b) sn = mergeCounter (sectionOf a sn) (sectionOf b sn) := by
  cases sn <;> rfl

theorem countersWF_section (c : Counters) (h : countersWF c) (sn : SectionName) :
    counterWF (sectionOf c sn) := by
  obtain ⟨h1, h2, h3, h4, h5, h6, h7, h8, h9, h10, h11⟩ := h
  cases sn <;> assumption

theorem getS_merge (a b : Counters) (hb : countersWF b) (sn : SectionName)
    (k : String) :
    getS (merge a b) sn k = getS a sn k + getS b sn k := by
  rw [getS, sectionOf_merge,
    getCount_mergeCounter _ _ (countersWF_section b hb sn)]
  rfl

theorem countersWF_merge (a b : Counters) (ha : countersWF a) :
    countersWF (merge a b) := by
  obtain ⟨h1, h2, h3, h4, h5, h6, h7, h8, h9, h10, h11⟩ := ha
  exact ⟨counterWF_mergeCounter _ _ h1, counterWF_mergeCounter _ _ h2,
    counterWF_mergeCounter _ _ h3, counterWF_mergeCounter _ _ h4,
    counterWF_mergeCounter _ _ h5, counterWF_mergeCounter _ _ h6,
    counterWF_mergeCounter _ _ h7, counterWF_mergeCounter _ _ h8,
    counterWF_mergeCounter _ _ h9, counterWF_mergeCounter _ _ h10,
    counterWF_mergeCounter _ _ h11⟩

theorem getS_foldl_merge (stores : List Counters) (m : Counters)
    (h : ∀ st ∈ stores, countersWF st) (sn : SectionName) (k : String) :
    getS (stores.foldl merge m) sn k
      = getS m sn k + (stores.map (fun st => getS st sn k)).sum := by
  induction stores generalizing m with
  | nil => simp
  | cons st rest ih =>
    rw [List.foldl_cons, ih _ (fun x hx => h x (List.mem_cons_of_mem _ hx)),
        getS_merge m st (h st (List.mem_cons_self _ _)) sn k]
    simp [List.map_cons]
    omega

theorem insertionSort_getCount_filter (c : Counter) (l : List String) (m : Nat) :
    (l.insertionSort (fun a b => getCount c b ≤ getCount c a)).filter
        (fun k => getCount c k == m)
      = l.filter (fun k => getCount c k == m) := by
  have hsub : List.Sublist (l.filter (fun k => getCount c k == m))
      (l.insertionSort (fun a b => getCount c b ≤ getCount c a)) := by
    apply List.sublist_insertionSort
    · apply List.pairwise_of_forall_mem_list
      intro a ha b hb
      have ha' := (List.mem_filter.mp ha).2
      have hb' := (List.mem_filter.mp hb).2
      have ha2 : getCount c a = m := by simpa using ha'
      have hb2 : getCount c b = m := by simpa using hb'
      omega
    · exact List.filter_sublist l
  have hsub2 := hsub.filter (fun k => getCount c k == m)
  rw [List.filter_filter] at hsub2
  have hre : (List.filter
      (fun a => (getCount c a == m) && (getCount c a == m)) l)
      = l.filter (fun k => getCount c k == m) := by
    apply List.filter_congr
    intro a _
    simp [Bool.and_self]
  rw [hre] at hsub2
  have hperm :=
    (List.perm_insertionSort (fun a b : String => getCount c b ≤ getCount c a) l).filter
      (fun k => getCount c k == m)
  exact (hsub2.eq_of_length hperm.length_eq.symm).symm

theorem sortKeys_map_fst (c : Counter) :
    (sortKeys c).map Prod.fst
      = (jsKeys c).insertionSort (fun a b => getCount c b ≤ getCount c a) := by
  rw [sortKeys, List.map_map]
  have hid : (Prod.fst ∘ fun k : String => (k, getCount c k)) = id := rfl
  rw [hid, List.map_id]

theorem sortKeys_sorted (c : Counter) :
    List.Sorted (fun p q : String × Nat => q.2 ≤ p.2) (sortKeys c) := by
  haveI : IsTotal String (fun a b => getCount c b ≤ getCount c a) :=
    ⟨fun a b => Nat.le_total (getCount c b) (getCount c a)⟩
  haveI : IsTrans String (fun a b => getCount c b ≤ getCount c a) :=
    ⟨fun _ _ _ hab hbc => le_trans hbc hab⟩
  have hs := List.sorted_insertionSort
    (fun a b : String => getCount c b ≤ getCount c a) (jsKeys c)
  exact List.Pairwise.map (fun k => (k, getCount c k)) (fun a b hab => hab) hs

theorem evTasks_append (l1 l2 : List (String × ParseResult)) :
    evTasks (l1 ++ l2) = evTasks l1 ++ evTasks l2 := by
  simp [evTasks]

theorem countEv_evTasks (l : List (String × ParseResult)) (sn : SectionName)
    (k : String) :
    countEv (evTasks l) sn k = (l.map (fun t => countEv (evTask t) sn k)).sum := by
  induction l with
  | nil => simp [evTasks, countEv]
  | cons t ts ih =>
    rw [evTasks_cons, countEv_append, ih]
    simp

theorem countEv_evTasks_flatten (groups : List (List (String × ParseResult)))
    (sn : SectionName) (k : String) :
    countEv (evTasks groups.flatten) sn k
      = (groups.map (fun g => countEv (evTasks g) sn k)).sum := by
  induction groups with
  | nil => simp [evTasks, countEv]
  | cons g rest ih =>
    rw [List.flatten_cons, evTasks_append, countEv_append, ih]
    simp

/-- C1.  The merge operation on counter stores is commutative and
associative — `merge(a, b)` and `merge(b, a)` hold, in every named
section, the same keys with the same counts, and bracketing does not
change any count — and for any set of scan tasks partitioned across any
number of classifiers in any way, folding the partial stores together in
any order yields, key for key and count for count, the same aggregate as
scanning all the tasks sequentially with one classifier into a single
store.  Stores are assumed well formed (JS objects cannot repeat a key). -/
theorem less_scanner_C1 (a b d : Counters)
    (ha : countersWF a) (hb : countersWF b) (hd : countersWF d)
    (files : List (String × ParseResult))
    (groups order : List (List (String × ParseResult)))
    (hpart : List.Perm groups.flatten files)
    (horder : List.Perm order groups) :
    (∀ sn k, getS (merge a b) sn k = getS (merge b a) sn k)
    ∧ (∀ sn k, k ∈ keysOf (sectionOf (merge a b) sn)
        ↔ k ∈ keysOf (sectionOf (merge b a) sn))
    ∧ (∀ sn k, getS (merge (merge a b) d) sn k
        = getS (merge a (merge b d)) sn k)
    ∧ (∀ sn k,
        getS ((order.map (fun g => workerRun makeCounters g)).foldl merge makeCounters) sn k
          = getS (workerRun makeCounters files) sn k) := by
  refine ⟨?_, ?_, ?_, ?_⟩
  · intro sn k
    rw [getS_merge a b hb sn k, getS_merge b a ha sn k]
    omega
  · intro sn k
    rw [sectionOf_merge, sectionOf_merge, mem_keysOf_mergeCounter,
      mem_keysOf_mergeCounter]
    tauto
  · intro sn k
    rw [getS_merge (merge a b) d hd sn k, getS_merge a b hb sn k,
      getS_merge a (merge b d) (countersWF_merge b d hb) sn k,
      getS_merge b d hd sn k]
    omega
  · intro sn k
    have hWF : ∀ st ∈ order.map (fun g => workerRun makeCounters g), countersWF st := by
      intro st hst
      obtain ⟨g, _, rfl⟩ := List.mem_map.mp hst
      rw [workerRun_ev]
      exact countersWF_applyEvents _ _ countersWF_makeCounters
    rw [getS_foldl_merge _ _ hWF sn k, getS_makeCounters]
    have hmap : (order.map (fun g => workerRun makeCounters g)).map
          (fun st => getS st sn k)
        = order.map (fun g => countEv (evTasks g) sn k) := by
      rw [List.map_map]
      apply List.map_congr_left
      intro g _
      simp [Function.comp, workerRun_ev, getS_applyEvents, getS_makeCounters]
    rw [hmap]
    have hsum : (order.map (fun g => countEv (evTasks g) sn k)).sum
        = (groups.map (fun g => countEv (evTasks g) sn k)).sum :=
      (horder.map _).sum_eq
    rw [hsum, ← countEv_evTasks_flatten]
    rw [workerRun_ev, getS_applyEvents, getS_makeCounters]
    have hfin : countEv (evTasks groups.flatten) sn k
        = countEv (evTasks files) sn k := by
      rw [countEv_evTasks, countEv_evTasks]
      exact (hpart.map _).sum_eq
    omega

/-- Witness for C1 at concrete inputs: two one-task groups merged in
swapped order give the same `syntax["rule"]` count as one sequential
scan of both files. -/
theorem less_scanner_C1_witness :
    getS ((([[taskF2], [taskF1]].map (fun g => workerRun makeCounters g)).foldl
        merge makeCounters)) SectionName.syntaxS "rule"
      = getS (workerRun makeCounters [taskF1, taskF2]) SectionName.syntaxS "rule" :=
  (less_scanner_C1 makeCounters makeCounters makeCounters
    (by decide) (by decide) (by decide)
    [taskF1, taskF2] [[taskF1], [taskF2]] [[taskF2], [taskF1]]
    (by simp)
    (List.Perm.swap _ _ _)).2.2.2 SectionName.syntaxS "rule"

/-- C2 counterexample.  The claim says a traversal of the stipulated
condition tree for `(@a + @b > 10)` increments `syntax["operation_gt"]`
exactly once; in fact the CONDITION case of `scanNode` never reads the
condition's operator, so the count stays 0. -/
theorem less_scanner_C2_cex :
    ¬ getS (scanNode makeCounters guardConditionTree)
        SectionName.syntaxS "operation_gt" = 1 := by
  decide

/-- C2 (amended).  One traversal of the stipulated tree for
`(@a + @b > 10)` increments `syntax["operation_add"]` once,
`syntax["variable"]` twice, `variables["a"]` and `variables["b"]` once
each, and `syntax["condition"]` once; `syntax["operation_gt"]` is not
incremented (only OPERATION nodes tag their operator; CONDITION nodes do
not), and the bare `10` lands in `syntax["number"]` and
`dimensions["10"]`. -/
theorem less_scanner_C2 :
    getS (scanNode makeCounters guardConditionTree)
        SectionName.syntaxS "operation_add" = 1
    ∧ getS (scanNode makeCounters guardConditionTree)
        SectionName.syntaxS "operation_gt" = 0
    ∧ getS (scanNode makeCounters guardConditionTree)
        SectionName.syntaxS "variable" = 2
    ∧ getS (scanNode makeCounters guardConditionTree)
        SectionName.variablesS "a" = 1
    ∧ getS (scanNode makeCounters guardConditionTree)
        SectionName.variablesS "b" = 1
    ∧ getS (scanNode makeCounters guardConditionTree)
        SectionName.syntaxS "condition" = 1
    ∧ getS (scanNode makeCounters guardConditionTree)
        SectionName.syntaxS "number" = 1
    ∧ getS (scanNode makeCounters guardConditionTree)
        SectionName.dimensionsS "10" = 1 := by
  decide

/-- C3.  Every dimension node tags `syntax["dimension"]` when its unit is
truthy and `syntax["number"]` otherwise (never both), and in both cases
records the concatenation of the numeric value with the unit (or the
empty string) once into the dimensions counter. -/
theorem less_scanner_C3 (c : Counters) (v : String) (u : Option String) :
    getS (scanNode c (.dimension v u)) SectionName.syntaxS "dimension"
        = getS c SectionName.syntaxS "dimension" + (if strTruthy u then 1 else 0)
    ∧ getS (scanNode c (.dimension v u)) SectionName.syntaxS "number"
        = getS c SectionName.syntaxS "number" + (if strTruthy u then 0 else 1)
    ∧ getS (scanNode c (.dimension v u)) SectionName.dimensionsS
          (v ++ (if strTruthy u then u.getD "" else ""))
        = getS c SectionName.dimensionsS
            (v ++ (if strTruthy u then u.getD "" else "")) + 1 := by
  cases hst : strTruthy u <;>
    simp [scanNode, hst, getS, sectionOf, instr, dim, bump, getCount_incr]

/-- C4.  A parse failure (thrown error or missing tree) makes `scan`
return a diagnostic that names the file while leaving the owned store
untouched; a successful parse scans the tree's block and returns no
diagnostic; and the worker's accumulated store over a task stream equals
the one over the successfully parsed tasks only, so a failing file is
skipped and contributes nothing. -/
theorem less_scanner_C4 (c : Counters) (path msg : String) (block : List Node)
    (tasks : List (String × ParseResult)) :
    scan c path (.perror msg)
        = (c, some ("failed to parse " ++ path ++ ": " ++ msg))
    ∧ scan c path .noTree = (c, some ("failed to parse " ++ path))
    ∧ scan c path (.parsed block) = (scanRules c block, none)
    ∧ workerRun c tasks = workerRun c (tasks.filter (fun t => isParsed t.2)) := by
  refine ⟨rfl, rfl, rfl, ?_⟩
  induction tasks generalizing c with
  | nil => rfl
  | cons t ts ih =>
    obtain ⟨p, pr⟩ := t
    cases pr with
    | perror m =>
      rw [workerRun_cons,
        show scanTask c (p, ParseResult.perror m) = c from rfl,
        show ((p, ParseResult.perror m) :: ts).filter (fun t => isParsed t.2)
            = ts.filter (fun t => isParsed t.2) from by simp [isParsed]]
      exact ih c
    | noTree =>
      rw [workerRun_cons,
        show scanTask c (p, ParseResult.noTree) = c from rfl,
        show ((p, ParseResult.noTree) :: ts).filter (fun t => isParsed t.2)
            = ts.filter (fun t => isParsed t.2) from by simp [isParsed]]
      exact ih c
    | parsed b =>
      rw [workerRun_cons,
        show ((p, ParseResult.parsed b) :: ts).filter (fun t => isParsed t.2)
            = (p, ParseResult.parsed b) :: ts.filter (fun t => isParsed t.2) from by
          simp [isParsed],
        workerRun_cons]
      exact ih _

/-- C5 counterexample.  In the counter built by inserting key "2" then
key "1" (both with count 1), `sortKeys` puts "1" before "2": `Object.keys`
enumerates array-index-like keys in ascending numeric order, not in
first-insertion order, so the tie is not broken by insertion order. -/
theorem less_scanner_C5_cex :
    sortKeys [("2", 1), ("1", 1)] = [("1", 1), ("2", 1)]
    ∧ ([("1", 1), ("2", 1)] : List (String × Nat)) ≠ [("2", 1), ("1", 1)] := by
  constructor
  · decide
  · decide

/-- C5 (amended).  `sortKeys` returns the section's pairs sorted by count
descending; rows with equal counts appear in `Object.keys` enumeration
order — array-index-like keys in ascending numeric order first, then the
remaining keys in first-insertion order — which coincides with
first-insertion order exactly when no key of the section is
array-index-like. -/
theorem less_scanner_C5 (c : Counter) :
    List.Sorted (fun p q : String × Nat => q.2 ≤ p.2) (sortKeys c)
    ∧ (∀ m : Nat, ((sortKeys c).map Prod.fst).filter (fun k => getCount c k == m)
        = (jsKeys c).filter (fun k => getCount c k == m))
    ∧ ((∀ k ∈ keysOf c, isArrayIndex k = false) → jsKeys c = keysOf c) := by
  refine ⟨sortKeys_sorted c, ?_, ?_⟩
  · intro m
    rw [sortKeys_map_fst]
    exact insertionSort_getCount_filter c (jsKeys c) m
  · intro h
    unfold jsKeys
    have h1 : (keysOf c).filter (fun k => isArrayIndex k) = [] := by
      rw [List.filter_eq_nil_iff]
      intro a ha
      simp [h a ha]
    have h2 : (keysOf c).filter (fun k => !isArrayIndex k) = keysOf c := by
      rw [List.filter_eq_self]
      intro a ha
      simp [h a ha]
    rw [h1, h2]
    simp

/-- Witness for C5 at a concrete input: a counter with no
array-index-like keys enumerates in first-insertion order. -/
theorem less_scanner_C5_witness :
    (∀ k ∈ keysOf [("px", 2), ("em", 1)], isArrayIndex k = false)
    ∧ jsKeys [("px", 2), ("em", 1)] = keysOf [("px", 2), ("em", 1)] :=
  ⟨by decide, (less_scanner_C5 [("px", 2), ("em", 1)]).2.2 (by decide)⟩

/-- C6.  Evaluation of the dispatch loop at a failing input: for an
existing file argument the posted scan message carries the `statSync`
result (the Stats object), not the file's path string as the claim
states; directory entries do get path strings, assigned round-robin by
`idx % count`. -/
theorem less_scanner_C6 :
    dispatch [PathArg.file "style.less"] 2
        = [(0, ScanPayload.statsOf "style.less")]
    ∧ ScanPayload.statsOf "style.less" ≠ ScanPayload.pathOf "style.less"
    ∧ dispatch [PathArg.directory "d" ["a", "b", "c"]] 2
        = [(0, ScanPayload.pathOf "d/a"), (1, ScanPayload.pathOf "d/b"),
           (0, ScanPayload.pathOf "d/c")] := by
  refine ⟨rfl, by decide, rfl⟩

/-- C7.  Scanning the same successfully parsed file twice with one
classifier gives, in every section and at every key, exactly twice the
count of scanning it once from a fresh store: one scan of a fixed tree is
deterministic and purely additive. -/
theorem less_scanner_C7 (path : String) (block : List Node)
    (sn : SectionName) (k : String) :
    getS (scan (scan makeCounters path (.parsed block)).1 path (.parsed block)).1 sn k
      = 2 * getS (scan makeCounters path (.parsed block)).1 sn k := by
  have h2 : ∀ c : Counters, (scan c path (.parsed block)).1 = scanRules c block :=
    fun _ => rfl
  rw [h2, h2, scanRules_ev, scanRules_ev, getS_applyEvents, getS_applyEvents,
    getS_makeCounters]
  omega

/-- C8.  Every selector element shape falls through into the EXPRESSION
case (no `break` after the ELEMENT case), so one traversal adds exactly
one extra `syntax["expression"]` increment on top of the element-specific
handling; in particular a bare text element increments
`syntax["text_element"]`, `elements[name]` and `syntax["expression"]` by
one each. -/
theorem less_scanner_C8 (c : Counters) (name : String) (v : Node)
    (parts : List Node) :
    getS (scanNode c (.textElement name)) SectionName.syntaxS "expression"
        = getS c SectionName.syntaxS "expression" + 1
    ∧ getS (scanNode c (.textElement name)) SectionName.syntaxS "text_element"
        = getS c SectionName.syntaxS "text_element" + 1
    ∧ getS (scanNode c (.textElement name)) SectionName.elementsS name
        = getS c SectionName.elementsS name + 1
    ∧ getS (scanNode c (.valueElement v)) SectionName.syntaxS "expression"
        = getS (scanNode (instr c "value_element") v) SectionName.syntaxS "expression"
            + 1
    ∧ getS (scanNode c (.attributeElement parts)) SectionName.syntaxS "expression"
        = getS (scanNodes (instr c "attribute_element") parts)
            SectionName.syntaxS "expression" + 1 := by
  refine ⟨?_, ?_, ?_, ?_, ?_⟩ <;>
    simp [scanNode, instr, elem, bump, getS, sectionOf, getCount_incr]

/-- C9.  The `color_keywords` section of every reachable store is always
empty: it is created empty, no traversal or worker run ever changes it (a
named color keyword is recorded into the keywords counter and tagged
`syntax["keyword_color"]` instead), and merging two stores whose
`color_keywords` sections are empty leaves it empty. -/
theorem less_scanner_C9 (c : Counters) (n : Node) (ns : List Node)
    (tasks : List (String × ParseResult)) (k : String) (a b : Counters) :
    makeCounters.color_keywords = []
    ∧ (scanNode c n).color_keywords = c.color_keywords
    ∧ (scanRules c ns).color_keywords = c.color_keywords
    ∧ (workerRun c tasks).color_keywords = c.color_keywords
    ∧ getS (scanNode c (.keywordColor k)) SectionName.keywordsS k
        = getS c SectionName.keywordsS k + 1
    ∧ getS (scanNode c (.keywordColor k)) SectionName.syntaxS "keyword_color"
        = getS c SectionName.syntaxS "keyword_color" + 1
    ∧ (merge { a with color_keywords := [] }
        { b with color_keywords := [] }).color_keywords = [] := by
  refine ⟨rfl, ?_, ?_, ?_, ?_, ?_, rfl⟩
  · rw [scanNode_ev, applyEvents_color_keywords]
  · rw [scanRules_ev, applyEvents_color_keywords]
  · rw [workerRun_ev, applyEvents_color_keywords]
  · simp [scanNode, instr, kwd, bump, getS, sectionOf, getCount_incr]
  · simp [scanNode, instr, kwd, bump, getS, sectionOf, getCount_incr]

/-- C10.  An absent (`null`/`undefined`) child handed to `scanNode` —
such as the guard of a guardless mixin, which is passed unconditionally —
returns the store unchanged; block traversal silently skips absent
entries in a rule list; so traversal is total on trees with missing
children and an absent child never contributes to any count. -/
theorem less_scanner_C10 (c : Counters) (ns1 ns2 : List Node) (p : Node)
    (bl rest : List Node) :
    scanNode c .nullNode = c
    ∧ scanRules c (ns1 ++ .nullNode :: ns2) = scanRules c (ns1 ++ ns2)
    ∧ scanRules c (.mixin .nullNode p bl :: rest)
        = scanRules (scanRules (scanNode (instr c "mixin") p) bl) rest
    ∧ scanNodes c (.nullNode :: ns2) = scanNodes c ns2 := by
  refine ⟨rfl, ?_, by simp only [scanRules, scanNode], by simp only [scanNodes, scanNode]⟩
  induction ns1 generalizing c with
  | nil => simp only [List.nil_append, scanRules]
  | cons hd tl ih =>
    cases hd
    case media fs bl2 =>
      cases fs <;> simp only [List.cons_append, scanRules] <;> exact ih _
    all_goals simp only [List.cons_append, scanRules]
    all_goals exact ih _
